import Mathlib

/-!
Shallow embedding of `gplearn/arg.py`: the InputView adapters
(`NDInputs`, `DataframeInputs`, `DictInputs`, `ListInputs`), the recursive
flatten algorithm (`BaseInputs._flatten` with `BaseInputs.build_idx`), the
argument sampler (`ArgSampler`) and the lazy constant wrapper
(`ConstantFNInput`), together with theorems settling the specification
claims about them.

Conventions of the embedding:
* Python values indexing a view are `PyIdx` (a string key or an integer
  position); Python exceptions are the `PyError` tags; fallible lookups
  return `Except PyError _`.
* Python list indexing (with its negative-index semantics) is `pyListGet`.
* A possibly nested input structure, as consumed by `_flatten`, is the
  inductive `Nested`: a leaf (any non-`BaseInputs` value) or one of the two
  container variants that occur nested in practice (positional sequence,
  keyed mapping).
* Element-type inference (`type(value)` in Python) is modelled by an
  arbitrary function `typeOf : A -> T` supplied to the constructor.
-/

namespace GplearnArg

/-- An index passed to `__getitem__` / produced by `__iter__`:
either a string key (mapping/table views) or an integer position. -/
inductive PyIdx where
  | str : String → PyIdx
  | int : Int → PyIdx
  deriving DecidableEq, Repr

/-- The `str()` rendering Python applies inside `"{}_{}".format`. -/
def PyIdx.toStr : PyIdx → String
  | .str s => s
  | .int i => toString i

/-- Python exception tags raised by the modelled code paths. -/
inductive PyError where
  | indexError
  | keyError
  | typeError
  deriving DecidableEq, Repr

/-- Python list indexing `l[i]`: non-negative indices address from the
front, negative indices address from the back, anything else raises
`IndexError`. -/
def pyListGet [Inhabited α] (l : List α) (i : Int) : Except PyError α :=
  if 0 ≤ i ∧ i < (l.length : Int) then
    .ok (l.getD i.toNat default)
  else if -(l.length : Int) ≤ i ∧ i < 0 then
    .ok (l.getD (i + (l.length : Int)).toNat default)
  else
    .error .indexError

/-- `enumerate` / the `for idx in range(len(self)): yield idx, self[idx]`
loop, with an explicit starting counter. -/
def enumFrom : Nat → List α → List (Nat × α)
  | _, [] => []
  | i, a :: as => (i, a) :: enumFrom (i + 1) as

/-- First-match association-list lookup, the dictionary access
`self.values[k]` (keys of a Python dict are unique, so first match is the
only match); total via `Inhabited` since callers only use it on present
keys. -/
def pyDictGet [Inhabited α] (entries : List (String × α)) (k : String) : α :=
  match entries with
  | [] => default
  | (k2, v) :: rest => if k2 = k then v else pyDictGet rest k

/-- `BaseInputs.build_idx(i, prefix, suffix)` from `arg.py`:
if both prefix and suffix are absent return `str(i)`; if only the prefix is
absent return the suffix; if only the suffix is absent it defaults to
`str(i)`; with a prefix present return `"{prefix}_{suffix}"`. -/
def build_idx (i : PyIdx) (pre : Option PyIdx) (suf : Option String) : String :=
  match pre with
  | none =>
    match suf with
    | none => i.toStr
    | some s => s
  | some p =>
    match suf with
    | none => p.toStr ++ "_" ++ i.toStr
    | some s => p.toStr ++ "_" ++ s

/-- A possibly nested input structure as walked by `BaseInputs._flatten`:
a non-`BaseInputs` leaf, a positional view (`ListInputs`/`NDInputs`
iteration order: ascending position), or a keyed view (`DictInputs`
iteration order: key-insertion order). -/
inductive Nested (α : Type) where
  | leaf : α → Nested α
  | listInputs : List (Nested α) → Nested α
  | dictInputs : List (String × Nested α) → Nested α
  deriving Repr

mutual

/-- `BaseInputs._flatten(inputs, idx)`: a leaf returns `([None], [leaf])`;
a view iterates its `(nested_idx, nested_value)` pairs with an `enumerate`
counter `i`, recursively flattens each value with `idx = nested_idx`, and
rewraps every returned sub-path through
`build_idx(i, idx, sub_path)`. Returns the parallel lists
`(flattened_idxs, flattened_values)`. -/
def _flatten : Nested α → Option PyIdx → List (Option String) × List α
  | .leaf a, _ => ([none], [a])
  | .listInputs l, idx => flattenListLoop l 0 idx
  | .dictInputs d, idx => flattenDictLoop d 0 idx

/-- The `for i, (nested_idx, nested_value) in enumerate(inputs)` loop of
`_flatten` for a positional view: the iteration index equals the counter. -/
def flattenListLoop : List (Nested α) → Nat → Option PyIdx → List (Option String) × List α
  | [], _, _ => ([], [])
  | v :: rest, i, idx =>
    let sub := _flatten v (some (.int i))
    let wrapped := sub.1.map (fun s => some (build_idx (.int i) idx s))
    let tail := flattenListLoop rest (i + 1) idx
    (wrapped ++ tail.1, sub.2 ++ tail.2)

/-- The same loop for a keyed view: the iteration index is the key while
the `enumerate` counter still advances positionally. -/
def flattenDictLoop : List (String × Nested α) → Nat → Option PyIdx → List (Option String) × List α
  | [], _, _ => ([], [])
  | (k, v) :: rest, i, idx =>
    let sub := _flatten v (some (.str k))
    let wrapped := sub.1.map (fun s => some (build_idx (.int i) idx s))
    let tail := flattenDictLoop rest (i + 1) idx
    (wrapped ++ tail.1, sub.2 ++ tail.2)

end

/-! ### The concrete InputView variants -/

/-- A 2D numeric array in column-major reading: `cols[j]` is the column
`values[:, j]`; `dtype` is the single shared element type tag. -/
structure NDArray (α τ : Type) where
  dtype : τ
  cols : List (List α)

/-- `NDInputs`: view over a 2D array. -/
structure NDInputs (α τ : Type) where
  values : NDArray α τ
  types : List τ

/-- `NDInputs.__init__(values, types=None)`: infers
`[values.dtype] * len(values.T)`, one shared tag per column. -/
def NDInputs.ofValues (values : NDArray α τ) : NDInputs α τ :=
  ⟨values, List.replicate values.cols.length values.dtype⟩

/-- `NDInputs.__len__`: `values.shape[1]`, the column count. -/
def NDInputs.length (x : NDInputs α τ) : Nat :=
  x.values.cols.length

/-- `NDInputs.__getitem__(idx)`: `values[:, idx]`, numpy column selection
with negative-index support and `IndexError` out of range. -/
def NDInputs.getItem [Inhabited α] (x : NDInputs α τ) (idx : Int) : Except PyError (List α) :=
  pyListGet x.values.cols idx

/-- `NDInputs.__iter__`: `for idx in range(len(self)): yield idx, self[idx]`. -/
def NDInputs.iterate (x : NDInputs α τ) : List (Nat × List α) :=
  enumFrom 0 x.values.cols

/-- A pandas-style frame: an ordered sequence of named, typed columns. -/
structure Frame (α τ : Type) where
  columns : List (String × τ × List α)

/-- The frame's ordered column labels (`values.columns`). -/
def Frame.colNames (f : Frame α τ) : List String :=
  f.columns.map Prod.fst

/-- `self.values[name]` for a label known to be present: the data of every
column carrying that label (pandas returns all matches; a unique label
yields the singleton of its column). -/
def Frame.getCols (f : Frame α τ) (name : String) : List (List α) :=
  (f.columns.filter (fun c => c.1 = name)).map (fun c => c.2.2)

/-- `DataframeInputs`: view over a tabular frame. -/
structure DataframeInputs (α τ : Type) where
  values : Frame α τ
  types : List τ

/-- `DataframeInputs.__init__(values, types=None)`: infers
`values.dtypes.values.tolist()`, the per-column type tags in column order. -/
def DataframeInputs.ofValues (values : Frame α τ) : DataframeInputs α τ :=
  ⟨values, values.columns.map (fun c => c.2.1)⟩

/-- `DataframeInputs.__len__`: `values.shape[1]`. -/
def DataframeInputs.length (x : DataframeInputs α τ) : Nat :=
  x.values.columns.length

/-- `DataframeInputs.__getitem__(idx)`: a label found in `values.columns`
is looked up by name first; otherwise `values.iloc[:, idx]` positional
selection (wrapped as a singleton column list for a uniform result type). -/
def DataframeInputs.getItem [Inhabited α] [Inhabited τ] (x : DataframeInputs α τ) (idx : PyIdx) :
    Except PyError (List (List α)) :=
  match idx with
  | .str name =>
    if name ∈ x.values.colNames then .ok (x.values.getCols name)
    else .error .keyError
  | .int i => (pyListGet x.values.columns i).map (fun c => [c.2.2])

/-- `DataframeInputs.__iter__`: `for idx in self.values.columns: yield idx, self[idx]`. -/
def DataframeInputs.iterate (x : DataframeInputs α τ) : List (String × List (List α)) :=
  x.values.colNames.map (fun n => (n, x.values.getCols n))

/-- `DictInputs`: view over a key-value mapping; `entries` is the
key-insertion-ordered content of the `frozendict` (keys unique by
construction from a Python dict). -/
structure DictInputs (α τ : Type) where
  entries : List (String × α)
  types : List τ

/-- `DictInputs.__init__(values, types=None)`: infers
`[type(value) for value in values.values()]`, in key order. -/
def DictInputs.ofValues (typeOf : α → τ) (values : List (String × α)) : DictInputs α τ :=
  ⟨values, values.map (fun e => typeOf e.2)⟩

/-- `self.keys = list(self.values.keys())`. -/
def DictInputs.keys (d : DictInputs α τ) : List String :=
  d.entries.map Prod.fst

/-- `DictInputs` inherits `BaseInputs.__len__`: `len(self.values)`. -/
def DictInputs.length (d : DictInputs α τ) : Nat :=
  d.entries.length

/-- `DictInputs.__getitem__(idx)`: a key present in `self.keys` is looked
up directly; otherwise the fallback `self.values[self.keys[idx]]` — for an
integer this is positional indexing into key-insertion order (negative
indices address from the back, out of range raises `IndexError`), while a
non-key string used to index the list `self.keys` raises `TypeError`. -/
def DictInputs.getItem [Inhabited α] (d : DictInputs α τ) (idx : PyIdx) : Except PyError α :=
  match idx with
  | .str k =>
    if k ∈ d.keys then .ok (pyDictGet d.entries k)
    else .error .typeError
  | .int i => (pyListGet d.keys i).map (fun k => pyDictGet d.entries k)

/-- `DictInputs.__iter__`: `for idx in self.keys: yield idx, self[idx]`. -/
def DictInputs.iterate [Inhabited α] (d : DictInputs α τ) : List (String × α) :=
  d.keys.map (fun k => (k, pyDictGet d.entries k))

/-- `ListInputs`: view over a flat ordered sequence, using the inherited
`BaseInputs.__init__`. -/
structure ListInputs (α τ : Type) where
  values : List α
  types : List τ

/-- `BaseInputs.__init__(values, types=None)` as inherited by `ListInputs`:
infers `[type(value) for value in values]`. -/
def ListInputs.ofValues (typeOf : α → τ) (values : List α) : ListInputs α τ :=
  ⟨values, values.map typeOf⟩

/-- `BaseInputs.__len__`: `len(self.values)`. -/
def ListInputs.length (l : ListInputs α τ) : Nat :=
  l.values.length

/-- `ListInputs.__getitem__(idx)`: `self.values[idx]`, Python list
indexing. -/
def ListInputs.getItem [Inhabited α] (l : ListInputs α τ) (idx : Int) : Except PyError α :=
  pyListGet l.values idx

/-- `ListInputs.__iter__`: `for idx in range(len(self)): yield idx, self[idx]`. -/
def ListInputs.iterate (l : ListInputs α τ) : List (Nat × α) :=
  enumFrom 0 l.values

/-- `ListInputs.flatten(inputs)`: run `_flatten` and package only the
flattened values, positionally, into a new `ListInputs`. -/
def ListInputs.flatten (typeOf : α → τ) (inputs : Nested α) : ListInputs α τ :=
  ListInputs.ofValues typeOf (_flatten inputs none).2

/-! ### ArgSampler

`arg.py` writes `def ArgSampler():` (a function whose body holds two inner
`def`s), evidently intending `class ArgSampler:`; the two inner functions
are modelled as written. The pseudo-random source
(`check_random_state(seed)` / a caller-supplied `random_state`) is modelled
as a stream `rs : Nat -> Q` of raw unit draws consumed in order, with
`uniform(low, high)` at step `t` yielding `low + (high - low) * rs t`. -/

/-- The `ArgSampler` state: a range per positional-argument name and a
range per keyword-argument name. -/
structure ArgSampler where
  arg_range_dict : List (String × ℚ × ℚ)
  kwarg_range_dict : List (String × ℚ × ℚ)

/-- One dict comprehension
`{arg: random_state.uniform(*rng) for arg, rng in ranges.items()}`:
returns the drawn entries and the advanced draw counter. -/
def drawAll (rs : Nat → ℚ) : List (String × ℚ × ℚ) → Nat → List (String × ℚ) × Nat
  | [], t => ([], t)
  | (a, lo, hi) :: rest, t =>
    let v := lo + (hi - lo) * rs t
    let tail := drawAll rs rest (t + 1)
    ((a, v) :: tail.1, tail.2)

/-- Python `d[k] = v` on an insertion-ordered dict: overwrite in place when
the key exists, append otherwise. -/
def dictInsert (d : List (String × ℚ)) (k : String) (v : ℚ) : List (String × ℚ) :=
  if d.any (fun e => e.1 = k) then
    d.map (fun e => if e.1 = k then (e.1, v) else e)
  else
    d ++ [(k, v)]

/-- Python `{**xs, **ys}`: start from `xs`, then insert every entry of `ys`
in order. -/
def dictMerge (xs ys : List (String × ℚ)) : List (String × ℚ) :=
  ys.foldl (fun d e => dictInsert d e.1 e.2) xs

/-- The `for i in range(n)` loop of `ArgSampler.sample`: both the `args`
and the `kwargs` comprehensions iterate `self.arg_range_dict` (as written
in the source), and each sample is `{**args, **kwargs}`. -/
def sampleLoop (s : ArgSampler) (rs : Nat → ℚ) : Nat → Nat → List (List (String × ℚ))
  | 0, _ => []
  | n + 1, t =>
    let args := drawAll rs s.arg_range_dict t
    let kwargs := drawAll rs s.arg_range_dict args.2
    dictMerge args.1 kwargs.1 :: sampleLoop s rs n kwargs.2

/-- `ArgSampler.sample(random_state, n, seed)`: `n` iterations of the
sampling loop against a shared random source, returning the ordered list of
sampled mappings. -/
def ArgSampler.sample (s : ArgSampler) (rs : Nat → ℚ) (n : Nat) : List (List (String × ℚ)) :=
  sampleLoop s rs n 0

/-! ### ConstantFNInput -/

/-- `ConstantFNInput` (the lazy zero-arity constant wrapper).

Modelled from the spec: `_Function.__init__` lives in `gplearn/functions.py`,
which is not among the provided sources; per the spec the wrapper "wraps a
callable plus fixed positional/keyword arguments", so the callable is
assumed stored as the `fn` attribute that `value` reads. The callable may
be non-deterministic, so it is modelled as a state transformer
`fn : args -> kwargs -> world -> result x world`. -/
structure ConstantFNInput (σ α β : Type) where
  fn : List β → List (String × β) → σ → α × σ
  args : List β
  kwargs : List (String × β)

/-- The `value` property: `self.fn(*self.args, **self.kwargs)`, invoked
afresh on every access (no caching), threading the world state. -/
def ConstantFNInput.value (c : ConstantFNInput σ α β) (world : σ) : α × σ :=
  c.fn c.args c.kwargs world

/-- A counter-incrementing zero-argument callable: returns the current
counter and increments it. -/
def tickInput : ConstantFNInput Nat Nat Unit :=
  ⟨fun _ _ s => (s, s + 1), [], []⟩

/-! ### Helper lemmas -/

theorem enumFrom_length (l : List α) : ∀ i, (enumFrom i l).length = l.length := by
  induction l with
  | nil => intro i; rfl
  | cons a as ih => intro i; simpa [enumFrom] using ih (i + 1)

theorem mem_enumFrom (l : List α) :
    ∀ i p, p ∈ enumFrom i l → i ≤ p.1 ∧ l.get? (p.1 - i) = some p.2 := by
  induction l with
  | nil => intro i p h; cases h
  | cons a as ih =>
    intro i p h
    rcases List.mem_cons.mp h with h1 | h1
    · subst h1; simp
    · obtain ⟨hle, hget⟩ := ih (i + 1) p h1
      refine ⟨Nat.le_of_succ_le hle, ?_⟩
      have hlt : i < p.1 := hle
      obtain ⟨k, hk⟩ : ∃ k, p.1 - i = k + 1 :=
        ⟨p.1 - i - 1, by omega⟩
      rw [hk]
      have : p.1 - (i + 1) = k := by omega
      simpa [this] using hget

theorem pyListGet_of_get? [Inhabited α] {l : List α} {n : Nat} {a : α}
    (h : l.get? n = some a) : pyListGet l (n : Int) = .ok a := by
  have hlt : n < l.length := List.get?_eq_some.mp h |>.1
  have hcond : 0 ≤ (n : Int) ∧ (n : Int) < (l.length : Int) := by
    constructor
    · exact Int.ofNat_nonneg n
    · exact_mod_cast hlt
  have hg : l[n]? = some a := by
    rw [← List.get?_eq_getElem?]; exact h
  simp [pyListGet, hcond, List.getD, hg]

/-! ### Claim theorems -/

/-- C1: flattening a two-level nested structure — an outer positional view
with 2 positions whose elements are inner positional views with 2 leaf
positions each, with no prefixes or suffixes supplied (`idx = None` at the
top) — yields exactly 4 entries with path identifiers `"0_0"`, `"0_1"`,
`"1_0"`, `"1_1"` in that order, and the flattened values are the original
leaves in depth-first index order. -/
theorem flatten_two_level_paths (a b c d : α) :
    _flatten (Nested.listInputs
      [Nested.listInputs [Nested.leaf a, Nested.leaf b],
       Nested.listInputs [Nested.leaf c, Nested.leaf d]]) none =
    ([some "0_0", some "0_1", some "1_0", some "1_1"], [a, b, c, d]) :=
  rfl

/-- C2: `build_idx(i, p, s)` returns the string form of `i` when prefix and
suffix are both absent, the suffix unchanged when only the prefix is
absent, `"{p}_{i}"` when only the suffix is absent, and `"{p}_{s}"` when
both are present. -/
theorem build_idx_cases (i p : PyIdx) (s : String) :
    build_idx i none none = i.toStr ∧
    build_idx i none (some s) = s ∧
    build_idx i (some p) none = p.toStr ++ "_" ++ i.toStr ∧
    build_idx i (some p) (some s) = p.toStr ++ "_" ++ s :=
  ⟨rfl, rfl, rfl, rfl⟩

/-- C3: on the mapping view built from `{"a": 1, "b": 2}`, `get("a")`
returns `1`; `get(0)` also returns `1` through the silent positional
fallback into key-insertion order; `get(1)` returns `2`; neither in-range
positional lookup is an error. -/
theorem dict_get_literal_fallback :
    (DictInputs.ofValues (fun _ => ()) [("a", (1 : Int)), ("b", 2)]).getItem (.str "a") = .ok 1 ∧
    (DictInputs.ofValues (fun _ => ()) [("a", (1 : Int)), ("b", 2)]).getItem (.int 0) = .ok 1 ∧
    (DictInputs.ofValues (fun _ => ()) [("a", (1 : Int)), ("b", 2)]).getItem (.int 1) = .ok 2 :=
  ⟨rfl, rfl, rfl⟩

/-- C5: for each of the four view variants constructed without explicit
type metadata, the inferred type sequence has exactly `length()` elements
immediately after construction. -/
theorem types_length_aligned (typeOfA : α → τ) (typeOfB : β → τ)
    (nd : NDArray γ τ) (f : Frame δ τ)
    (dvals : List (String × α)) (lvals : List β) :
    (NDInputs.ofValues nd).types.length = (NDInputs.ofValues nd).length ∧
    (DataframeInputs.ofValues f).types.length = (DataframeInputs.ofValues f).length ∧
    (DictInputs.ofValues typeOfA dvals).types.length = (DictInputs.ofValues typeOfA dvals).length ∧
    (ListInputs.ofValues typeOfB lvals).types.length = (ListInputs.ofValues typeOfB lvals).length := by
  refine ⟨?_, ?_, ?_, ?_⟩ <;>
    simp [NDInputs.ofValues, NDInputs.length, DataframeInputs.ofValues, DataframeInputs.length,
      DictInputs.ofValues, DictInputs.length, ListInputs.ofValues, ListInputs.length]

/-- C7: each access of `value` invokes the wrapped callable with the fixed
`args`/`kwargs` and returns its fresh result, with no caching: wrapping a
counter-incrementing zero-argument callable, two successive accesses return
strictly increasing values. -/
theorem value_lazy_reinvocation (c : ConstantFNInput σ α β) (w : σ) (s0 : Nat) :
    c.value w = c.fn c.args c.kwargs w ∧
    (tickInput.value s0).1 < (tickInput.value (tickInput.value s0).2).1 := by
  exact ⟨rfl, by simp [tickInput, ConstantFNInput.value]⟩

/-- C6: for each view variant, one full pass of iteration yields exactly
`length()` pairs, and for every yielded pair `(idx, v)` the lookup
`get(idx)` returns the same value `v`. -/
theorem iterate_get_agreement [Inhabited α] [Inhabited β] [Inhabited γ] [Inhabited δ]
    [Inhabited τ]
    (x : NDInputs α τ) (f : DataframeInputs β τ) (d : DictInputs γ τ) (l : ListInputs δ τ) :
    (x.iterate.length = x.length ∧
      ∀ p ∈ x.iterate, x.getItem (p.1 : Int) = .ok p.2) ∧
    (f.iterate.length = f.length ∧
      ∀ p ∈ f.iterate, f.getItem (.str p.1) = .ok p.2) ∧
    (d.iterate.length = d.length ∧
      ∀ p ∈ d.iterate, d.getItem (.str p.1) = .ok p.2) ∧
    (l.iterate.length = l.length ∧
      ∀ p ∈ l.iterate, l.getItem (p.1 : Int) = .ok p.2) := by
  refine ⟨⟨enumFrom_length _ 0, ?_⟩, ⟨by simp [DataframeInputs.iterate,
      DataframeInputs.length, Frame.colNames], ?_⟩,
    ⟨by simp [DictInputs.iterate, DictInputs.length, DictInputs.keys], ?_⟩,
    ⟨enumFrom_length _ 0, ?_⟩⟩
  · intro p hp
    obtain ⟨-, hget⟩ := mem_enumFrom _ 0 p hp
    simpa [NDInputs.getItem] using pyListGet_of_get? (by simpa using hget)
  · intro p hp
    obtain ⟨n, hn, hpn⟩ := List.mem_map.mp hp
    subst hpn
    simp [DataframeInputs.getItem, hn]
  · intro p hp
    obtain ⟨k, hk, hpk⟩ := List.mem_map.mp hp
    subst hpk
    simp [DictInputs.getItem, hk]
  · intro p hp
    obtain ⟨-, hget⟩ := mem_enumFrom _ 0 p hp
    simpa [ListInputs.getItem] using pyListGet_of_get? (by simpa using hget)

/-- Witness for C6 at concrete one-element views: the iterate/get agreement
instantiated and its membership hypotheses discharged. -/
theorem iterate_get_agreement_witness :
    (NDInputs.ofValues ⟨(0 : Nat), [[(1 : Int)]]⟩).getItem ((0 : Nat) : Int) = .ok [1] ∧
    (DataframeInputs.ofValues ⟨[("c", (0 : Nat), [(2 : Int)])]⟩).getItem (.str "c") = .ok [[2]] ∧
    (DictInputs.ofValues (fun _ => (0 : Nat)) [("a", (3 : Int))]).getItem (.str "a") = .ok 3 ∧
    (ListInputs.ofValues (fun _ => (0 : Nat)) [(4 : Int)]).getItem ((0 : Nat) : Int) = .ok 4 := by
  have h := iterate_get_agreement
    (NDInputs.ofValues ⟨(0 : Nat), [[(1 : Int)]]⟩)
    (DataframeInputs.ofValues ⟨[("c", (0 : Nat), [(2 : Int)])]⟩)
    (DictInputs.ofValues (fun _ => (0 : Nat)) [("a", (3 : Int))])
    (ListInputs.ofValues (fun _ => (0 : Nat)) [(4 : Int)])
  exact ⟨h.1.2 (0, [1]) (by decide), h.2.1.2 ("c", [[2]]) (by decide),
    h.2.2.1.2 ("a", 3) (by decide), h.2.2.2.2 (0, 4) (by decide)⟩

/-- C10: on a mapping view, a string lookup that is not a key raises
`TypeError` (the fallback indexes the key list with a string), and an
integer position outside `[-length(), length())` raises `IndexError` from
the positional fallback into key-insertion order; neither silently returns
a value. -/
theorem dict_get_invalid_raises [Inhabited α] (d : DictInputs α τ) :
    (∀ k : String, k ∉ d.keys → d.getItem (.str k) = .error .typeError) ∧
    (∀ i : Int, ((d.length : Int) ≤ i ∨ i < -(d.length : Int)) →
      d.getItem (.int i) = .error .indexError) := by
  constructor
  · intro k hk
    simp [DictInputs.getItem, hk]
  · intro i hi
    have hlen : d.keys.length = d.length := by
      simp [DictInputs.keys, DictInputs.length]
    have h1 : ¬(0 ≤ i ∧ i < (d.keys.length : Int)) := by
      rw [hlen]; omega
    have h2 : ¬(-(d.keys.length : Int) ≤ i ∧ i < 0) := by
      rw [hlen]; omega
    simp [DictInputs.getItem, pyListGet, h1, h2, Except.map]

/-- Witness for C10: on the mapping `{"a": 1}`, `get("z")` raises
`TypeError` and `get(5)` raises `IndexError`. -/
theorem dict_get_invalid_raises_witness :
    (DictInputs.ofValues (fun _ => ()) [("a", (1 : Int))]).getItem (.str "z") =
      .error .typeError ∧
    (DictInputs.ofValues (fun _ => ()) [("a", (1 : Int))]).getItem (.int 5) =
      .error .indexError :=
  ⟨(dict_get_invalid_raises (DictInputs.ofValues (fun _ => ()) [("a", (1 : Int))])).1
      "z" (by decide),
   (dict_get_invalid_raises (DictInputs.ofValues (fun _ => ()) [("a", (1 : Int))])).2
      5 (by decide)⟩

theorem drawAll_keys (rs : Nat → ℚ) (ranges : List (String × ℚ × ℚ)) :
    ∀ t, (drawAll rs ranges t).1.map Prod.fst = ranges.map Prod.fst := by
  induction ranges with
  | nil => intro t; rfl
  | cons r rest ih => intro t; simp [drawAll, ih]

theorem dictInsert_keys (d : List (String × ℚ)) (k : String) (v : ℚ)
    (h : k ∈ d.map Prod.fst) : (dictInsert d k v).map Prod.fst = d.map Prod.fst := by
  have hany : d.any (fun e => e.1 = k) = true := by
    obtain ⟨e, he, hek⟩ := List.mem_map.mp h
    exact List.any_eq_true.mpr ⟨e, he, by simpa using hek⟩
  have hfun : (fun e : String × ℚ => (if e.1 = k then (e.1, v) else e).1) =
      fun e : String × ℚ => e.1 := by
    funext e
    by_cases he : e.1 = k <;> simp [he]
  simp [dictInsert, hany, List.map_map, Function.comp_def, hfun]

theorem dictMerge_keys (ys : List (String × ℚ)) :
    ∀ xs, (∀ k ∈ ys.map Prod.fst, k ∈ xs.map Prod.fst) →
      (dictMerge xs ys).map Prod.fst = xs.map Prod.fst := by
  induction ys with
  | nil => intro xs _; rfl
  | cons y rest ih =>
    intro xs h
    have hy : y.1 ∈ xs.map Prod.fst := h y.1 (by simp)
    have hkeys := dictInsert_keys xs y.1 y.2 hy
    have hstep : dictMerge xs (y :: rest) = dictMerge (dictInsert xs y.1 y.2) rest := rfl
    rw [hstep, ih (dictInsert xs y.1 y.2) ?_, hkeys]
    intro k hk
    rw [hkeys]
    exact h k (by simp [hk])

theorem sampleLoop_spec (s : ArgSampler) (rs : Nat → ℚ) :
    ∀ n t, (sampleLoop s rs n t).length = n ∧
      (sampleLoop s rs n t).map (fun m => m.map Prod.fst) =
        List.replicate n (s.arg_range_dict.map Prod.fst) := by
  intro n
  induction n with
  | zero => intro t; exact ⟨rfl, rfl⟩
  | succ n ih =>
    intro t
    obtain ⟨ihlen, ihkeys⟩ := ih (drawAll rs s.arg_range_dict
      (drawAll rs s.arg_range_dict t).2).2
    have hargs := drawAll_keys rs s.arg_range_dict t
    have hkwargs := drawAll_keys rs s.arg_range_dict (drawAll rs s.arg_range_dict t).2
    have hmerge : (dictMerge (drawAll rs s.arg_range_dict t).1
        (drawAll rs s.arg_range_dict (drawAll rs s.arg_range_dict t).2).1).map Prod.fst =
        s.arg_range_dict.map Prod.fst := by
      rw [dictMerge_keys _ _ ?_, hargs]
      intro k hk
      rw [hargs]
      rw [hkwargs] at hk
      exact hk
    refine ⟨by simpa [sampleLoop] using ihlen, ?_⟩
    simp [sampleLoop, List.replicate_succ, hmerge, ihkeys]

/-- C4 counterexample: with one declared positional range `a` and one
declared keyword range `k`, a single drawn sample has key list `["a"]` —
it contains no entry for the keyword-argument name `k`, because both
comprehensions in `sample` iterate `arg_range_dict`. -/
theorem sample_kwarg_entry_missing :
    (ArgSampler.sample ⟨[("a", 0, 1)], [("k", 2, 3)]⟩ (fun _ => 0) 1).map
      (fun m => m.map Prod.fst) = [["a"]] ∧
    "k" ∉ ["a"] := by
  refine ⟨?_, by decide⟩
  rfl

/-- C4 amended: `sample` returns exactly `n` mappings, and each mapping's
keys are exactly the declared positional-argument names, in declaration
order; the keyword range mapping contributes nothing (both comprehensions
iterate `arg_range_dict`, the second overwriting the first's draws). -/
theorem sample_length_and_keys (s : ArgSampler) (rs : Nat → ℚ) (n : Nat) :
    (s.sample rs n).length = n ∧
    (s.sample rs n).map (fun m => m.map Prod.fst) =
      List.replicate n (s.arg_range_dict.map Prod.fst) :=
  sampleLoop_spec s rs n 0

/-- C8 counterexample: flattening a `ListInputs` holding two bare leaves
produces, before packaging, path identifiers `"0"` and `"1"` — the string
forms of the positions, not `None`. -/
theorem flatten_flat_path_not_none :
    (_flatten (Nested.listInputs [Nested.leaf (0 : Int), Nested.leaf 1]) none).1 =
      [some "0", some "1"] ∧
    (some "0" : Option String) ≠ none :=
  ⟨rfl, by decide⟩

theorem flattenListLoop_leaves (l : List α) :
    ∀ i, flattenListLoop (l.map Nested.leaf) i none =
      ((List.range' i l.length).map (fun j => some (toString j)), l) := by
  induction l with
  | nil => intro i; simp [flattenListLoop, List.range']
  | cons a as ih =>
    intro i
    simp [flattenListLoop, _flatten, build_idx, PyIdx.toStr, List.range', ih (i + 1)]
    rfl

/-- C8 amended: flattening a `ListInputs` of `n` non-InputView leaves
returns all leaves unchanged and in their original order; before packaging
each entry carries the string form of its position (`"0"` .. `"n-1"`) as
its path, not `None`; after `ListInputs` packaging the leaves occupy
positions `0..n-1`. -/
theorem flatten_already_flat (typeOf : α → τ) (l : List α) :
    _flatten (Nested.listInputs (l.map Nested.leaf)) none =
      ((List.range l.length).map (fun j => some (toString j)), l) ∧
    (ListInputs.flatten typeOf (Nested.listInputs (l.map Nested.leaf))).values = l := by
  have h := flattenListLoop_leaves l 0
  have h1 : _flatten (Nested.listInputs (l.map Nested.leaf)) none =
      ((List.range l.length).map (fun j => some (toString j)), l) := by
    rw [List.range_eq_range']
    simpa [_flatten] using h
  exact ⟨h1, by simp [ListInputs.flatten, ListInputs.ofValues, h1]⟩

end GplearnArg
